import Mathlib

/-!
Verification of the bulk email sender front-end pipeline
(`src/components/email-sender-form.tsx`): recipient normalization,
email validation, submission gating, response handling, and the
spreadsheet-upload extension gate, together with a model of the send
orchestrator described by the specification.

Strings are modelled by Lean `String` (a wrapper around `List Char`);
the JavaScript string primitives used by the component (`split("\n")`,
`trim()`, `toLowerCase()`, `endsWith`, `Set` dedup) are embedded as
executable functions on `List Char` / `String` below.
-/

namespace BulkEmail

/-! ### Character and list-of-char primitives -/

/-- Embedding of JavaScript `s.split("\n")`: splits a character list at
every newline, keeping empty pieces (`"".split` gives `[""]`,
`"\n".split` gives `["", ""]`). -/
def splitLines : List Char → List (List Char)
  | [] => [[]]
  | c :: cs =>
    let r := splitLines cs
    if c = '\n' then [] :: r else (c :: r.headD []) :: r.tail

/-- Joining a list of lines with newline separators (the inverse
direction of `splitLines`, used to restate normalization idempotence). -/
def joinLines : List (List Char) → List Char
  | [] => []
  | [x] => x
  | x :: y :: ys => x ++ '\n' :: joinLines (y :: ys)

/-- Dropping the longest suffix whose characters satisfy `p`. -/
def dropWhileEnd (p : α → Bool) (l : List α) : List α :=
  ((l.reverse.dropWhile p)).reverse

/-- Embedding of JavaScript `s.trim()`: removes leading and trailing
whitespace characters. -/
def trimL (l : List Char) : List Char :=
  dropWhileEnd Char.isWhitespace (l.dropWhile Char.isWhitespace)

/-- Embedding of JavaScript `s.toLowerCase()` on the ASCII range. -/
def lowerL (l : List Char) : List Char :=
  l.map Char.toLower

/-- Embedding of the JavaScript `Array.from(new Set(list))` idiom:
keeps the first occurrence of every element, in first-seen order. -/
def dedupKeepFirst [DecidableEq α] : List α → List α
  | [] => []
  | x :: xs => x :: (dedupKeepFirst xs).filter (fun y => decide (y ≠ x))

/-! ### String-level wrappers -/

/-- Lower-casing a string, modelling `email.toLowerCase()`. -/
def strLower (s : String) : String :=
  String.mk (lowerL s.data)

/-- Trimming a string, modelling `email.trim()`. -/
def trimStr (s : String) : String :=
  String.mk (trimL s.data)

/-- Joining a list of strings with `"\n"`, modelling `list.join("\n")`. -/
def joinStr (l : List String) : String :=
  String.mk (joinLines (l.map String.data))

/-- Embedding of JavaScript `", "`-joining, `list.join(", ")`. -/
def joinComma : List String → String
  | [] => ""
  | [x] => x
  | x :: y :: ys => x ++ ", " ++ joinComma (y :: ys)

/-! ### Email validator (source lines 36-38)

The component tests `/^[^\s@]+@[^\s@]+\.[^\s@]+$/` against `email.trim()`.
Since `@` is excluded from every character class, a string in the
language of this regex contains exactly one `@`; the matcher below
therefore splits at the first character that is whitespace or `@`,
requires it to be `@` with a non-empty prefix, and requires the part
after the `@` to be whitespace-free and `@`-free with a dot that is
neither its first nor its last character (the dot separating the
second and third `[^\s@]+` groups). -/

/-- Character class `[^\s@]` of the validation regex. -/
def isEmailChar (c : Char) : Bool :=
  !c.isWhitespace && c != '@'

/-- Matcher for the validation regex on a trimmed character list. -/
def validateEmailL (t : List Char) : Bool :=
  let a := t.takeWhile isEmailChar
  match t.drop a.length with
  | r :: tail => r == '@' && !a.isEmpty && tail.all isEmailChar && tail.tail.dropLast.contains '.'
  | [] => false

/-- Embedding of `validateEmail` (source lines 36-38): the regex test
applied to the trimmed input. -/
def validateEmail (s : String) : Bool :=
  validateEmailL (trimL s.data)

/-! ### Recipient normalization (source lines 84-93) -/

/-- Embedding of `recipientList` (source lines 85-88): split the raw
recipients text on newlines, trim each line, drop empty lines. -/
def recipientList (t : String) : List String :=
  (((splitLines t.data).map trimL).filter (fun l => decide (l ≠ []))).map String.mk

/-- Embedding of `uniqueRecipients` (source lines 91-93):
`Array.from(new Set(recipientList.map(email => email.toLowerCase())))`. -/
def uniqueRecipients (t : String) : List String :=
  dedupKeepFirst ((recipientList t).map strLower)

/-- Number of duplicate entries removed by normalization
(source line 108: `recipientList.length - uniqueRecipients.length`). -/
def dupCount (t : String) : Nat :=
  (recipientList t).length - (uniqueRecipients t).length

/-- Embedding of `invalidEmails` (source line 100): the normalized
recipients failing validation. -/
def invalidEmails (t : String) : List String :=
  (uniqueRecipients t).filter (fun e => !validateEmail e)

/-- Duplicate-feedback message computed at source lines 106-112: set
exactly when deduplication shortened the list. -/
def dupMsgOf (t : String) : String :=
  if (uniqueRecipients t).length < (recipientList t).length then
    toString (dupCount t) ++ " duplicate email address removed"
  else ""

/-! ### Send orchestrator data model (source lines 13-24 and spec 4.4) -/

/-- Per-recipient outcome (`EmailResult` interface, source lines 13-17). -/
structure SendResult where
  email : String
  success : Bool
  message : String
deriving DecidableEq, Repr

/-- Aggregate report (`EmailResponse` interface, source lines 19-24). -/
structure SendReport where
  total : Nat
  successful : Nat
  failed : Nat
  results : List SendResult
deriving DecidableEq, Repr

/-- Request body of the send call (source lines 132-136). -/
structure EmailRequest where
  subject : String
  body : String
  recipients : List String
deriving DecidableEq, Repr

/-! ### Form state and submission handler (source lines 26-157) -/

/-- Local component state relevant to the handlers: the `useState`
fields `subject`, `body`, `recipients`, `error`, `duplicateInfo` and
`results` (the `loading`/`uploading` flags are presentation only). -/
structure FormState where
  subject : String
  body : String
  recipients : String
  error : String
  duplicateInfo : String
  results : Option SendReport
deriving DecidableEq, Repr

/-- Embedding of `handleSubmit` up to the network call (source lines
78-124): resets `error`, `results` and `duplicateInfo`, normalizes the
recipients, and either blocks with an error (returning `none`: no
request is issued) or produces the request that is sent to the
`/send-emails` endpoint. -/
def handleSubmitPre (st : FormState) : FormState × Option EmailRequest :=
  let st0 : FormState := { st with error := "", duplicateInfo := "", results := none }
  let rl := recipientList st0.recipients
  let uniq := uniqueRecipients st0.recipients
  if uniq.isEmpty then
    ({ st0 with error := "Please enter at least one recipient email address" }, none)
  else
    let invalid := uniq.filter (fun e => !validateEmail e)
    if !invalid.isEmpty then
      ({ st0 with error := "Invalid email addresses: " ++ joinComma invalid }, none)
    else
      let dupMsg : String :=
        if uniq.length < rl.length then
          toString (rl.length - uniq.length) ++ " duplicate email address removed"
        else ""
      let st1 : FormState := { st0 with duplicateInfo := dupMsg }
      if trimStr st1.subject = "" then
        ({ st1 with error := "Please enter a subject" }, none)
      else if trimStr st1.body = "" then
        ({ st1 with error := "Please enter a message" }, none)
      else
        (st1, some { subject := st1.subject, body := st1.body, recipients := uniq })

/-- Embedding of the response half of `handleSubmit` (source lines
139-156): on a non-ok or failed request the caught error message is
stored and the form fields are untouched; on a report the results are
stored and the three input fields are cleared exactly when
`successful === total`. -/
def handleResponse (st : FormState) (resp : Except String SendReport) : FormState :=
  match resp with
  | .error e => { st with error := e }
  | .ok data =>
    let st1 : FormState := { st with results := some data }
    if data.successful = data.total then
      { st1 with subject := "", body := "", recipients := "" }
    else
      st1

/-! ### File upload gate (source lines 40-47) -/

/-- Embedding of JavaScript `name.endsWith(ext)`. -/
def endsWithStr (name ext : String) : Bool :=
  ext.data.isSuffixOf name.data

/-- Embedding of the client-side gate of `handleFileUpload` (source
lines 40-59): a filename not ending in `.xlsx` or `.xls` sets an error
and returns before the upload request; otherwise the error is cleared
and the upload request is issued (the returned flag records whether
the request was made). -/
def handleFileUpload (st : FormState) (fileName : String) : FormState × Bool :=
  if !endsWithStr fileName ".xlsx" && !endsWithStr fileName ".xls" then
    ({ st with error := "Please upload an Excel file (.xlsx or .xls)" }, false)
  else
    ({ st with error := "" }, true)

/-! ### Specification-side definitions

These follow the wording of the specification and of the claims and
are compared against the source embeddings above. -/

/-- Specification reading of deduplication: walk the list with a set
of already-seen keys, keeping an element exactly when it has not been
seen before (first-seen order). -/
def firstSeen [DecidableEq α] (seen : List α) : List α → List α
  | [] => []
  | x :: xs => if x ∈ seen then firstSeen seen xs else x :: firstSeen (x :: seen) xs

/-- Specification reading of the normalization pipeline: split the
text on newlines, trim each line, drop empty lines, lower-case each
remaining line, and keep only the first occurrence of each distinct
lower-cased address in first-seen order. -/
def specNormalize (t : String) : List String :=
  firstSeen []
    ((((splitLines t.data).map trimL).filter (fun l => decide (l ≠ []))).map
      (fun l => String.mk (lowerL l)))

/-- Specification reading of the validation pattern: one or more
characters that are neither whitespace nor `@`, a literal `@`, one or
more such characters, a literal dot, and one or more such characters. -/
def emailPattern (t : List Char) : Prop :=
  ∃ a b c : List Char,
    t = a ++ '@' :: (b ++ '.' :: c) ∧
    a ≠ [] ∧ b ≠ [] ∧ c ≠ [] ∧
    (∀ x ∈ a, isEmailChar x = true) ∧
    (∀ x ∈ b, isEmailChar x = true) ∧
    (∀ x ∈ c, isEmailChar x = true)

/-- Modelled from the spec: the send orchestrator (spec section 4.4)
is backend code that is not part of this repository checkout, which
only contains the front-end component. Given a delivery provider
(modelled as a function from a recipient to a success flag and a
message), the orchestrator invokes the provider once per recipient
independently, collects one `SendResult` per recipient in input order,
and aggregates `total = recipients.length`, `successful` = count of
successes, `failed = total - successful`. -/
def sendEmails (provider : String → Bool × String) (recipients : List String) :
    SendReport :=
  let results := recipients.map (fun r => SendResult.mk r (provider r).1 (provider r).2)
  { total := recipients.length
    successful := (results.filter (fun r => r.success)).length
    failed := recipients.length - (results.filter (fun r => r.success)).length
    results := results }

/-- Concrete delivery provider used by the worked example of the
specification: succeeds for `x@a.com`, fails for `y@a.com`. -/
def exampleProvider (r : String) : Bool × String :=
  if r = "x@a.com" then (true, "sent") else (false, "rejected")

/-! ### Character-level lemmas -/

/-- Unpacking `Char.ofNat` at a valid code point. -/
theorem toNat_ofNat_valid {n : Nat} (h : n.isValidChar) : (Char.ofNat n).toNat = n := by
  rw [Char.ofNat, dif_pos h]
  rfl

/-- Characters with equal code points are equal. -/
theorem char_toNat_inj {c d : Char} (h : c.toNat = d.toNat) : c = d := by
  apply Char.ext
  apply UInt32.eq_of_toBitVec_eq
  apply BitVec.eq_of_toNat_eq
  exact h

/-- Arithmetic form of `Char.toLower`. -/
theorem toLower_unfold (c : Char) :
    Char.toLower c = if c.toNat ≥ 65 ∧ c.toNat ≤ 90 then Char.ofNat (c.toNat + 32) else c := rfl

/-- Code point of the lower-cased character. -/
theorem toNat_toLower (c : Char) :
    (Char.toLower c).toNat = if c.toNat ≥ 65 ∧ c.toNat ≤ 90 then c.toNat + 32 else c.toNat := by
  rw [toLower_unfold]
  by_cases h : c.toNat ≥ 65 ∧ c.toNat ≤ 90
  · rw [if_pos h, if_pos h, toNat_ofNat_valid]
    left
    omega
  · rw [if_neg h, if_neg h]

/-- Lower-casing a character is idempotent. -/
theorem toLower_toLower (c : Char) : Char.toLower (Char.toLower c) = Char.toLower c := by
  apply char_toNat_inj
  by_cases h : c.toNat ≥ 65 ∧ c.toNat ≤ 90
  · have h1 : (Char.toLower c).toNat = c.toNat + 32 := by rw [toNat_toLower, if_pos h]
    rw [toNat_toLower, h1, if_neg (by omega)]
  · have h1 : (Char.toLower c).toNat = c.toNat := by rw [toNat_toLower, if_neg h]
    rw [toNat_toLower, h1, if_neg h]

/-- Code-point characterization of `Char.isWhitespace`. -/
theorem isWhitespace_iff_toNat (c : Char) :
    c.isWhitespace = true ↔ (c.toNat = 32 ∨ c.toNat = 9 ∨ c.toNat = 13 ∨ c.toNat = 10) := by
  simp only [Char.isWhitespace, Bool.or_eq_true, decide_eq_true_eq]
  constructor
  · rintro (((h | h) | h) | h) <;> rw [h] <;> simp [Char.toNat]
  · rintro (h | h | h | h)
    · left; left; left; exact char_toNat_inj h
    · left; left; right; exact char_toNat_inj h
    · left; right; exact char_toNat_inj h
    · right; exact char_toNat_inj h

/-- Lower-casing does not change whitespace status. -/
theorem isWhitespace_toLower (c : Char) :
    (Char.toLower c).isWhitespace = c.isWhitespace := by
  by_cases h : c.toNat ≥ 65 ∧ c.toNat ≤ 90
  · have h1 : (Char.toLower c).toNat = c.toNat + 32 := by rw [toNat_toLower, if_pos h]
    have h2 : c.isWhitespace = false := by
      rw [Bool.eq_false_iff]
      intro hw
      rcases (isWhitespace_iff_toNat c).mp hw with h3 | h3 | h3 | h3 <;> omega
    have h3 : (Char.toLower c).isWhitespace = false := by
      rw [Bool.eq_false_iff]
      intro hw
      rcases (isWhitespace_iff_toNat _).mp hw with h3 | h3 | h3 | h3 <;> omega
    rw [h2, h3]
  · rw [toLower_unfold, if_neg h]

/-- Lower-casing does not introduce a newline. -/
theorem toLower_ne_newline {c : Char} (h : c ≠ '\n') : Char.toLower c ≠ '\n' := by
  by_cases hu : c.toNat ≥ 65 ∧ c.toNat ≤ 90
  · intro he
    have h1 : (Char.toLower c).toNat = c.toNat + 32 := by rw [toNat_toLower, if_pos hu]
    rw [he] at h1
    have h2 : ('\n' : Char).toNat = 10 := rfl
    omega
  · rw [toLower_unfold, if_neg hu]
    exact h

/-! ### Deduplication lemmas -/

/-- Deduplication preserves membership. -/
theorem mem_dedupKeepFirst [DecidableEq α] {a : α} {l : List α} :
    a ∈ dedupKeepFirst l ↔ a ∈ l := by
  induction l with
  | nil => rfl
  | cons x xs ih =>
    rw [dedupKeepFirst, List.mem_cons, List.mem_cons]
    constructor
    · rintro (h | h)
      · exact Or.inl h
      · exact Or.inr (ih.mp (List.mem_of_mem_filter h))
    · rintro (h | h)
      · exact Or.inl h
      · by_cases hx : a = x
        · exact Or.inl hx
        · exact Or.inr (List.mem_filter.mpr ⟨ih.mpr h, by simp [hx]⟩)

/-- Deduplication yields a list without duplicates. -/
theorem nodup_dedupKeepFirst [DecidableEq α] (l : List α) : (dedupKeepFirst l).Nodup := by
  induction l with
  | nil => exact List.nodup_nil
  | cons x xs ih =>
    rw [dedupKeepFirst]
    refine List.nodup_cons.mpr ⟨?_, ih.filter _⟩
    intro hmem
    have h2 := List.of_mem_filter hmem
    simp at h2

/-- Deduplication is the identity on duplicate-free lists. -/
theorem dedupKeepFirst_eq_self [DecidableEq α] {l : List α} (h : l.Nodup) :
    dedupKeepFirst l = l := by
  induction l with
  | nil => rfl
  | cons x xs ih =>
    rw [dedupKeepFirst, ih (List.nodup_cons.mp h).2]
    congr 1
    apply List.filter_eq_self.mpr
    intro y hy
    have hne : y ≠ x := by
      intro he
      rw [he] at hy
      exact (List.nodup_cons.mp h).1 hy
    simp [hne]

/-- Deduplication commutes with filtering. -/
theorem dedupKeepFirst_filter [DecidableEq α] (p : α → Bool) (l : List α) :
    dedupKeepFirst (l.filter p) = (dedupKeepFirst l).filter p := by
  induction l with
  | nil => rfl
  | cons x xs ih =>
    rw [List.filter_cons, dedupKeepFirst]
    by_cases hp : p x = true
    · rw [if_pos hp, dedupKeepFirst, ih, List.filter_cons, if_pos hp]
      congr 1
      rw [List.filter_filter, List.filter_filter]
      congr 1
      funext y
      rw [Bool.and_comm]
    · rw [if_neg hp, ih, List.filter_cons, if_neg hp, List.filter_filter]
      apply Eq.symm
      apply List.filter_congr
      intro y hy
      by_cases hyx : y = x
      · rw [hyx]
        have hpx : p x = false := by
          rw [Bool.eq_false_iff]
          exact hp
        simp [hpx]
      · simp [hyx]

/-- The seen-set formulation of deduplication agrees with the
filter-based one on the elements not yet seen. -/
theorem firstSeen_eq_dedup [DecidableEq α] (seen : List α) (l : List α) :
    firstSeen seen l = dedupKeepFirst (l.filter (fun x => decide (x ∉ seen))) := by
  induction l generalizing seen with
  | nil => rfl
  | cons x xs ih =>
    rw [firstSeen]
    by_cases hx : x ∈ seen
    · rw [if_pos hx, List.filter_cons, if_neg (by simp [hx]), ih]
    · rw [if_neg hx, List.filter_cons, if_pos (by simp [hx]), dedupKeepFirst, ih]
      congr 1
      rw [← dedupKeepFirst_filter, List.filter_filter]
      congr 1
      apply List.filter_congr
      intro y hy
      by_cases h1 : y = x <;> by_cases h2 : y ∈ seen <;> simp [h1, h2]

/-! ### Trimming lemmas -/

/-- Dropping a matching prefix twice equals dropping it once. -/
theorem dropWhile_dropWhile (p : α → Bool) (l : List α) :
    (l.dropWhile p).dropWhile p = l.dropWhile p := by
  induction l with
  | nil => rfl
  | cons x xs ih =>
    rw [List.dropWhile_cons]
    by_cases h : p x = true
    · rw [if_pos h]
      exact ih
    · rw [if_neg h, List.dropWhile_cons, if_neg h]

/-- Dropping a matching suffix twice equals dropping it once. -/
theorem dropWhileEnd_idem (p : α → Bool) (l : List α) :
    dropWhileEnd p (dropWhileEnd p l) = dropWhileEnd p l := by
  rw [dropWhileEnd, dropWhileEnd, List.reverse_reverse, dropWhile_dropWhile]

/-- Emptiness of the suffix-dropped list in terms of the reversed list. -/
theorem dropWhileEnd_eq_nil_iff (p : α → Bool) (l : List α) :
    dropWhileEnd p l = [] ↔ l.reverse.dropWhile p = [] := by
  rw [dropWhileEnd]
  constructor
  · intro h
    rw [← List.reverse_nil] at h
    exact List.reverse_injective h
  · intro h
    rw [h, List.reverse_nil]

/-- Cons equation for `dropWhileEnd`, vanishing case. -/
theorem dropWhileEnd_cons_of_all {p : α → Bool} {x : α} {xs : List α}
    (hp : p x = true) (h : dropWhileEnd p xs = []) :
    dropWhileEnd p (x :: xs) = [] := by
  rw [dropWhileEnd, List.reverse_cons, List.dropWhile_append,
    (dropWhileEnd_eq_nil_iff p xs).mp h]
  simp [hp]

/-- Cons equation for `dropWhileEnd`, persisting case. -/
theorem dropWhileEnd_cons_of_not {p : α → Bool} {x : α} {xs : List α}
    (h : ¬(p x = true ∧ dropWhileEnd p xs = [])) :
    dropWhileEnd p (x :: xs) = x :: dropWhileEnd p xs := by
  rw [dropWhileEnd, List.reverse_cons, List.dropWhile_append]
  by_cases hnil : dropWhileEnd p xs = []
  · have hp : p x = false := by
      rcases Bool.eq_false_or_eq_true (p x) with h1 | h1
      · exact absurd ⟨h1, hnil⟩ h
      · exact h1
    rw [(dropWhileEnd_eq_nil_iff p xs).mp hnil]
    simp [hp, dropWhileEnd, (dropWhileEnd_eq_nil_iff p xs).mp hnil]
  · have h2 : (xs.reverse.dropWhile p).isEmpty = false := by
      rw [List.isEmpty_eq_false]
      intro hc
      exact hnil ((dropWhileEnd_eq_nil_iff p xs).mpr hc)
    rw [h2]
    simp only [Bool.false_eq_true, if_false, List.reverse_append, List.reverse_cons,
      List.reverse_nil, List.nil_append, List.singleton_append]
    rfl

/-- A list whose suffix-drop vanishes also has a vanishing prefix-drop. -/
theorem dropWhileEnd_all_dropWhile {p : α → Bool} {l : List α}
    (h : dropWhileEnd p l = []) : l.dropWhile p = [] := by
  have h1 := (dropWhileEnd_eq_nil_iff p l).mp h
  have h2 : ∀ a ∈ l, p a = true := by
    intro a ha
    exact List.dropWhile_eq_nil_iff.mp h1 a (List.mem_reverse.mpr ha)
  exact List.dropWhile_eq_nil_iff.mpr fun a ha => h2 a ha

/-- Dropping a matching prefix and a matching suffix commute. -/
theorem dropWhile_dropWhileEnd_comm (p : α → Bool) (l : List α) :
    (dropWhileEnd p l).dropWhile p = dropWhileEnd p (l.dropWhile p) := by
  induction l with
  | nil => rfl
  | cons x xs ih =>
    by_cases hp : p x = true
    · by_cases hnil : dropWhileEnd p xs = []
      · rw [dropWhileEnd_cons_of_all hp hnil, List.dropWhile_cons, if_pos hp,
          List.dropWhile_nil, ← ih, hnil]
        rfl
      · rw [dropWhileEnd_cons_of_not (by intro hc; exact hnil hc.2),
          List.dropWhile_cons, if_pos hp, List.dropWhile_cons, if_pos hp]
        exact ih
    · rw [dropWhileEnd_cons_of_not (by intro hc; exact hp hc.1),
        List.dropWhile_cons, if_neg hp, List.dropWhile_cons, if_neg hp,
        dropWhileEnd_cons_of_not (by intro hc; exact hp hc.1)]

/-- Trimming is idempotent. -/
theorem trimL_idem (l : List Char) : trimL (trimL l) = trimL l := by
  rw [trimL, trimL, dropWhile_dropWhileEnd_comm, dropWhile_dropWhile, dropWhileEnd_idem]

/-- Suffix-dropping commutes with mapping. -/
theorem dropWhileEnd_map (f : α → β) (p : β → Bool) (l : List α) :
    dropWhileEnd p (l.map f) = (dropWhileEnd (p ∘ f) l).map f := by
  rw [dropWhileEnd, dropWhileEnd, ← List.map_reverse, List.dropWhile_map, List.map_reverse]

/-- Lower-casing commutes with trimming. -/
theorem lowerL_trimL (l : List Char) :
    lowerL (trimL l) = trimL (lowerL l) := by
  have h1 : Char.isWhitespace ∘ Char.toLower = Char.isWhitespace := by
    funext a
    exact isWhitespace_toLower a
  rw [lowerL, lowerL, trimL, trimL, List.dropWhile_map, dropWhileEnd_map, h1]

/-- Membership in the trimmed list implies membership in the list. -/
theorem mem_of_mem_trimL {c : Char} {l : List Char} (h : c ∈ trimL l) : c ∈ l := by
  rw [trimL, dropWhileEnd] at h
  have h1 := (List.dropWhile_sublist Char.isWhitespace).mem (List.mem_reverse.mp h)
  exact (List.dropWhile_sublist Char.isWhitespace).mem (List.mem_reverse.mp h1)

/-! ### Splitting and joining lemmas -/

/-- Splitting never produces an empty list of pieces. -/
theorem splitLines_ne_nil (l : List Char) : splitLines l ≠ [] := by
  cases l with
  | nil => simp [splitLines]
  | cons c cs =>
    rw [splitLines]
    by_cases h : c = '\n' <;> simp [h]

/-- No piece produced by splitting contains a newline. -/
theorem newline_not_mem_of_mem_splitLines {p : List Char} {l : List Char}
    (h : p ∈ splitLines l) : '\n' ∉ p := by
  induction l generalizing p with
  | nil =>
    rw [splitLines, List.mem_singleton] at h
    rw [h]
    exact List.not_mem_nil _
  | cons c cs ih =>
    rw [splitLines] at h
    by_cases hc : c = '\n'
    · rw [if_pos hc, List.mem_cons] at h
      rcases h with h | h
      · rw [h]; exact List.not_mem_nil _
      · exact ih h
    · rw [if_neg hc, List.mem_cons] at h
      rcases h with h | h
      · rw [h]
        intro hmem
        rcases List.mem_cons.mp hmem with h1 | h1
        · exact hc h1.symm
        · rcases hr : splitLines cs with _ | ⟨hd, tl⟩
          · exact absurd hr (splitLines_ne_nil cs)
          · rw [hr] at h1
            simp only [List.headD_cons] at h1
            exact ih (by rw [hr]; exact List.mem_cons_self hd tl) h1
      · rcases hr : splitLines cs with _ | ⟨hd, tl⟩
        · exact absurd hr (splitLines_ne_nil cs)
        · rw [hr] at h
          simp only [List.tail_cons] at h
          exact ih (by rw [hr]; exact List.mem_cons_of_mem hd h)

/-- Splitting a newline-free list yields that single piece. -/
theorem splitLines_no_newline {l : List Char} (h : '\n' ∉ l) : splitLines l = [l] := by
  induction l with
  | nil => rfl
  | cons c cs ih =>
    have hc : c ≠ '\n' := fun he => h (he ▸ List.mem_cons_self c cs)
    have hcs : '\n' ∉ cs := fun hm => h (List.mem_cons_of_mem c hm)
    rw [splitLines]
    simp only [if_neg hc, ih hcs]
    rfl

/-- Splitting peels off a newline-free first line. -/
theorem splitLines_append_newline {x rest : List Char} (h : '\n' ∉ x) :
    splitLines (x ++ '\n' :: rest) = x :: splitLines rest := by
  induction x with
  | nil =>
    rw [List.nil_append, splitLines]
    simp
  | cons c cs ih =>
    have hc : c ≠ '\n' := fun he => h (he ▸ List.mem_cons_self c cs)
    have hcs : '\n' ∉ cs := fun hm => h (List.mem_cons_of_mem c hm)
    rw [List.cons_append, splitLines]
    simp only [if_neg hc, ih hcs]
    rfl

/-- Splitting is a left inverse of joining on non-empty lists of
newline-free pieces. -/
theorem splitLines_joinLines {ps : List (List Char)} (hne : ps ≠ [])
    (h : ∀ p ∈ ps, '\n' ∉ p) : splitLines (joinLines ps) = ps := by
  induction ps with
  | nil => exact absurd rfl hne
  | cons x xs ih =>
    cases xs with
    | nil =>
      rw [joinLines]
      exact splitLines_no_newline (h x (List.mem_singleton_self x))
    | cons y ys =>
      rw [joinLines, splitLines_append_newline (h x (List.mem_cons_self x _)),
        ih (by simp) (fun p hp => h p (List.mem_cons_of_mem x hp))]

/-! ### Lower-casing lemmas -/

/-- Lower-casing a character list is idempotent. -/
theorem lowerL_idem (l : List Char) : lowerL (lowerL l) = lowerL l := by
  rw [lowerL, lowerL, List.map_map]
  apply List.map_congr_left
  intro a ha
  exact toLower_toLower a

/-- Lower-casing preserves newline-freeness. -/
theorem newline_not_mem_lowerL {l : List Char} (h : '\n' ∉ l) : '\n' ∉ lowerL l := by
  intro hmem
  rcases List.mem_map.mp hmem with ⟨c, hc, hlow⟩
  by_cases he : c = '\n'
  · rw [he] at hc
    exact h hc
  · exact toLower_ne_newline he hlow

/-! ### Properties of the normalized recipients -/

/-- Every normalized recipient is non-empty, trimmed, lower-cased and
newline-free at the character level. -/
theorem mem_uniqueRecipients_data {t : String} {e : String}
    (he : e ∈ uniqueRecipients t) :
    e.data ≠ [] ∧ trimL e.data = e.data ∧ lowerL e.data = e.data ∧ '\n' ∉ e.data := by
  have h1 : e ∈ (recipientList t).map strLower := mem_dedupKeepFirst.mp he
  rcases List.mem_map.mp h1 with ⟨r, hr, hre⟩
  rcases List.mem_map.mp hr with ⟨l0, hl0, hl0r⟩
  have hfil := List.mem_filter.mp hl0
  rcases List.mem_map.mp hfil.1 with ⟨q, hq, hql⟩
  have hl0ne : l0 ≠ [] := by
    have := hfil.2
    simpa using this
  have hl0q : l0 = trimL q := hql.symm
  have hedata : e.data = lowerL l0 := by
    rw [← hre, ← hl0r]
    rfl
  constructor
  · rw [hedata, lowerL]
    intro hc
    exact hl0ne (List.map_eq_nil_iff.mp hc)
  constructor
  · rw [hedata, hl0q, lowerL_trimL, trimL_idem]
  constructor
  · rw [hedata, lowerL_idem]
  · have hqn : '\n' ∉ q := newline_not_mem_of_mem_splitLines hq
    have hl0n : '\n' ∉ l0 := by
      rw [hl0q]
      intro hc
      exact hqn (mem_of_mem_trimL hc)
    rw [hedata]
    exact newline_not_mem_lowerL hl0n

/-- String-level restatement: every normalized recipient is non-empty,
lower-casing-fixed and trimming-fixed. -/
theorem mem_uniqueRecipients_fixed {t : String} {e : String}
    (he : e ∈ uniqueRecipients t) :
    e ≠ "" ∧ strLower e = e ∧ trimStr e = e := by
  rcases mem_uniqueRecipients_data he with ⟨h1, h2, h3, _⟩
  refine ⟨?_, ?_, ?_⟩
  · intro hc
    rw [hc] at h1
    exact h1 rfl
  · rw [strLower, h3]
  · rw [trimStr, h2]

/-! ### Branch analysis of the submission handler -/

/-- Empty normalized list: blocked with the no-recipient error. -/
theorem handleSubmitPre_empty (st : FormState) (h : uniqueRecipients st.recipients = []) :
    handleSubmitPre st = ({ st with
      error := "Please enter at least one recipient email address",
      duplicateInfo := "",
      results := none }, none) := by
  rw [handleSubmitPre]
  simp only [h]
  rfl

/-- Invalid addresses present: blocked with the listing error. -/
theorem handleSubmitPre_invalid (st : FormState) (h : invalidEmails st.recipients ≠ []) :
    handleSubmitPre st = ({ st with
      error := "Invalid email addresses: " ++ joinComma (invalidEmails st.recipients),
      duplicateInfo := "",
      results := none }, none) := by
  have huniq : (uniqueRecipients st.recipients).isEmpty = false := by
    rw [List.isEmpty_eq_false]
    intro hc
    apply h
    rw [invalidEmails, hc]
    rfl
  rw [handleSubmitPre]
  simp only [huniq, Bool.false_eq_true, if_false]
  rw [← invalidEmails]
  have hinv : (invalidEmails st.recipients).isEmpty = false := by
    rw [List.isEmpty_eq_false]
    exact h
  simp only [hinv]
  rfl

/-- Valid recipients but blank subject: blocked with the subject error. -/
theorem handleSubmitPre_noSubject (st : FormState)
    (hne : uniqueRecipients st.recipients ≠ [])
    (hval : invalidEmails st.recipients = [])
    (hsub : trimStr st.subject = "") :
    handleSubmitPre st = ({ st with
      error := "Please enter a subject",
      duplicateInfo := dupMsgOf st.recipients,
      results := none }, none) := by
  have huniq : (uniqueRecipients st.recipients).isEmpty = false := by
    rw [List.isEmpty_eq_false]
    exact hne
  have hinv : ((uniqueRecipients st.recipients).filter (fun e => !validateEmail e)).isEmpty = true := by
    rw [List.isEmpty_iff]
    exact hval
  rw [handleSubmitPre]
  simp only [huniq, Bool.false_eq_true, if_false, hinv, Bool.not_true, if_pos hsub]
  rw [dupMsgOf, dupCount]

/-- Valid recipients, subject present, blank body: blocked with the
message error. -/
theorem handleSubmitPre_noBody (st : FormState)
    (hne : uniqueRecipients st.recipients ≠ [])
    (hval : invalidEmails st.recipients = [])
    (hsub : trimStr st.subject ≠ "")
    (hbody : trimStr st.body = "") :
    handleSubmitPre st = ({ st with
      error := "Please enter a message",
      duplicateInfo := dupMsgOf st.recipients,
      results := none }, none) := by
  have huniq : (uniqueRecipients st.recipients).isEmpty = false := by
    rw [List.isEmpty_eq_false]
    exact hne
  have hinv : ((uniqueRecipients st.recipients).filter (fun e => !validateEmail e)).isEmpty = true := by
    rw [List.isEmpty_iff]
    exact hval
  rw [handleSubmitPre]
  simp only [huniq, Bool.false_eq_true, if_false, hinv, Bool.not_true, if_neg hsub, if_pos hbody]
  rw [dupMsgOf, dupCount]

/-- All gates passed: the request is issued. -/
theorem handleSubmitPre_send (st : FormState)
    (hne : uniqueRecipients st.recipients ≠ [])
    (hval : invalidEmails st.recipients = [])
    (hsub : trimStr st.subject ≠ "")
    (hbody : trimStr st.body ≠ "") :
    handleSubmitPre st = ({ st with
      error := "",
      duplicateInfo := dupMsgOf st.recipients,
      results := none },
      some { subject := st.subject, body := st.body,
             recipients := uniqueRecipients st.recipients }) := by
  have huniq : (uniqueRecipients st.recipients).isEmpty = false := by
    rw [List.isEmpty_eq_false]
    exact hne
  have hinv : ((uniqueRecipients st.recipients).filter (fun e => !validateEmail e)).isEmpty = true := by
    rw [List.isEmpty_iff]
    exact hval
  rw [handleSubmitPre]
  simp only [huniq, Bool.false_eq_true, if_false, hinv, Bool.not_true, if_neg hsub, if_neg hbody]
  rw [dupMsgOf, dupCount]


/-! ### Claim theorems -/

/-- Helper: the specification pipeline coincides with the source
normalization. -/
theorem specNormalize_eq (t : String) : specNormalize t = uniqueRecipients t := by
  rw [specNormalize, firstSeen_eq_dedup, uniqueRecipients, recipientList, List.map_map]
  congr 1
  apply List.filter_eq_self.mpr
  intro y hy
  simp

/-- C1: normalization equals split, trim, drop-empty, lower-case,
first-occurrence dedup; the duplicate count is the number of non-empty
trimmed lines minus the number of distinct entries; on
`"a@b.com\na@B.com\nc@d.org"` it yields `[a@b.com, c@d.org]` with one
duplicate removed. -/
theorem C1_normalization_pipeline :
    (∀ t : String, uniqueRecipients t = specNormalize t ∧
      dupCount t = (recipientList t).length - (specNormalize t).length) ∧
    uniqueRecipients "a@b.com\na@B.com\nc@d.org" = ["a@b.com", "c@d.org"] ∧
    dupCount "a@b.com\na@B.com\nc@d.org" = 1 := by
  refine ⟨fun t => ⟨(specNormalize_eq t).symm, ?_⟩, by decide, by decide⟩
  rw [specNormalize_eq]
  rfl

/-- C2: for a non-empty recipient list the orchestrator produces one
result per recipient in input order, each depending only on its own
recipient, with `total` the list length, `successful` the success
count and `failed` their difference; on the worked example the report
is `(2, 1, 1)` in input order. -/
theorem C2_send_report (provider : String → Bool × String) (recipients : List String)
    (h : recipients ≠ []) :
    (sendEmails provider recipients).total = recipients.length ∧
    (sendEmails provider recipients).results =
      recipients.map (fun r => SendResult.mk r (provider r).1 (provider r).2) ∧
    (sendEmails provider recipients).results.map SendResult.email = recipients ∧
    (sendEmails provider recipients).successful =
      ((sendEmails provider recipients).results.filter (fun r => r.success)).length ∧
    (sendEmails provider recipients).failed =
      (sendEmails provider recipients).total - (sendEmails provider recipients).successful ∧
    sendEmails exampleProvider ["x@a.com", "y@a.com"] =
      SendReport.mk 2 1 1
        [SendResult.mk "x@a.com" true "sent", SendResult.mk "y@a.com" false "rejected"] := by
  refine ⟨rfl, rfl, ?_, rfl, rfl, by decide⟩
  rw [sendEmails]
  simp only [List.map_map]
  have hcomp : SendResult.email ∘ (fun r => SendResult.mk r (provider r).1 (provider r).2) = id := by
    funext r
    rfl
  rw [hcomp, List.map_id]

/-- Witness for C2 at the worked example of the specification. -/
theorem C2_send_report_witness :
    (["x@a.com", "y@a.com"] ≠ ([] : List String)) ∧
    ((sendEmails exampleProvider ["x@a.com", "y@a.com"]).total = ["x@a.com", "y@a.com"].length ∧
     (sendEmails exampleProvider ["x@a.com", "y@a.com"]).results =
       ["x@a.com", "y@a.com"].map
         (fun r => SendResult.mk r (exampleProvider r).1 (exampleProvider r).2) ∧
     (sendEmails exampleProvider ["x@a.com", "y@a.com"]).results.map SendResult.email =
       ["x@a.com", "y@a.com"] ∧
     (sendEmails exampleProvider ["x@a.com", "y@a.com"]).successful =
       ((sendEmails exampleProvider ["x@a.com", "y@a.com"]).results.filter
         (fun r => r.success)).length ∧
     (sendEmails exampleProvider ["x@a.com", "y@a.com"]).failed =
       (sendEmails exampleProvider ["x@a.com", "y@a.com"]).total -
         (sendEmails exampleProvider ["x@a.com", "y@a.com"]).successful ∧
     sendEmails exampleProvider ["x@a.com", "y@a.com"] =
       SendReport.mk 2 1 1
         [SendResult.mk "x@a.com" true "sent", SendResult.mk "y@a.com" false "rejected"]) :=
  ⟨by decide, C2_send_report exampleProvider ["x@a.com", "y@a.com"] (by decide)⟩

/-- C4: any invalid normalized address blocks the whole submission:
no request is issued and the error lists every invalid address. -/
theorem C4_invalid_blocks_submission (st : FormState) (e : String)
    (he : e ∈ uniqueRecipients st.recipients) (hv : validateEmail e = false) :
    (handleSubmitPre st).2 = none ∧
    (handleSubmitPre st).1.error =
      "Invalid email addresses: " ++ joinComma (invalidEmails st.recipients) ∧
    e ∈ invalidEmails st.recipients ∧
    (∀ x ∈ uniqueRecipients st.recipients, validateEmail x = false →
      x ∈ invalidEmails st.recipients) := by
  have hmem : e ∈ invalidEmails st.recipients :=
    List.mem_filter.mpr ⟨he, by simp [hv]⟩
  have hne : invalidEmails st.recipients ≠ [] := List.ne_nil_of_mem hmem
  rw [handleSubmitPre_invalid st hne]
  exact ⟨rfl, rfl, hmem, fun x hx hvx => List.mem_filter.mpr ⟨hx, by simp [hvx]⟩⟩

/-- Witness for C4 at a concrete submission with an invalid address. -/
theorem C4_invalid_blocks_submission_witness :
    ("bad" ∈ uniqueRecipients "bad\nok@example.com") ∧ validateEmail "bad" = false ∧
    ((handleSubmitPre (FormState.mk "S" "B" "bad\nok@example.com" "" "" none)).2 = none ∧
     (handleSubmitPre (FormState.mk "S" "B" "bad\nok@example.com" "" "" none)).1.error =
       "Invalid email addresses: " ++ joinComma (invalidEmails "bad\nok@example.com") ∧
     "bad" ∈ invalidEmails "bad\nok@example.com" ∧
     (∀ x ∈ uniqueRecipients "bad\nok@example.com", validateEmail x = false →
       x ∈ invalidEmails "bad\nok@example.com")) :=
  ⟨by decide, by decide,
    C4_invalid_blocks_submission (FormState.mk "S" "B" "bad\nok@example.com" "" "" none)
      "bad" (by decide) (by decide)⟩

/-- Helper: appending to a non-empty string is non-empty. -/
theorem append_ne_empty_left {s : String} (t : String) (h : s ≠ "") : s ++ t ≠ "" := by
  intro hc
  apply h
  have hd := congrArg String.data hc
  rw [String.data_append] at hd
  apply String.ext
  exact (List.append_eq_nil.mp hd).1

/-- C5: an empty normalized recipient list, a blank subject or a blank
body blocks the submission locally with an error and no request. -/
theorem C5_input_errors_block (st : FormState)
    (h : uniqueRecipients st.recipients = [] ∨ trimStr st.subject = "" ∨ trimStr st.body = "") :
    (handleSubmitPre st).2 = none ∧ (handleSubmitPre st).1.error ≠ "" := by
  by_cases h1 : uniqueRecipients st.recipients = []
  · rw [handleSubmitPre_empty st h1]
    refine ⟨rfl, ?_⟩
    show ("Please enter at least one recipient email address" : String) ≠ ""
    decide
  · by_cases h2 : invalidEmails st.recipients = []
    · rcases h with h | h | h
      · exact absurd h h1
      · rw [handleSubmitPre_noSubject st h1 h2 h]
        refine ⟨rfl, ?_⟩
        show ("Please enter a subject" : String) ≠ ""
        decide
      · by_cases h3 : trimStr st.subject = ""
        · rw [handleSubmitPre_noSubject st h1 h2 h3]
          refine ⟨rfl, ?_⟩
          show ("Please enter a subject" : String) ≠ ""
          decide
        · rw [handleSubmitPre_noBody st h1 h2 h3 h]
          refine ⟨rfl, ?_⟩
          show ("Please enter a message" : String) ≠ ""
          decide
    · rw [handleSubmitPre_invalid st h2]
      exact ⟨rfl, append_ne_empty_left _ (by decide)⟩

/-- Witness for C5 at a concrete submission with a blank subject. -/
theorem C5_input_errors_block_witness :
    (uniqueRecipients (FormState.mk "" "B" "ok@example.com" "" "" none).recipients = [] ∨
     trimStr (FormState.mk "" "B" "ok@example.com" "" "" none).subject = "" ∨
     trimStr (FormState.mk "" "B" "ok@example.com" "" "" none).body = "") ∧
    ((handleSubmitPre (FormState.mk "" "B" "ok@example.com" "" "" none)).2 = none ∧
     (handleSubmitPre (FormState.mk "" "B" "ok@example.com" "" "" none)).1.error ≠ "") :=
  ⟨Or.inr (Or.inl (by decide)),
    C5_input_errors_block (FormState.mk "" "B" "ok@example.com" "" "" none)
      (Or.inr (Or.inl (by decide)))⟩

/-- C6: after a report the three input fields are cleared exactly when
`successful = total`, and a send-level error leaves all three fields
unchanged. -/
theorem C6_clear_iff_full_success (st : FormState) (r : SendReport) (e : String) :
    ((handleResponse st (Except.ok r)).subject =
        (if r.successful = r.total then "" else st.subject) ∧
     (handleResponse st (Except.ok r)).body =
        (if r.successful = r.total then "" else st.body) ∧
     (handleResponse st (Except.ok r)).recipients =
        (if r.successful = r.total then "" else st.recipients) ∧
     (handleResponse st (Except.ok r)).results = some r) ∧
    ((handleResponse st (Except.error e)).subject = st.subject ∧
     (handleResponse st (Except.error e)).body = st.body ∧
     (handleResponse st (Except.error e)).recipients = st.recipients) := by
  by_cases h : r.successful = r.total <;> simp [handleResponse, h]

/-- C7: the upload proceeds exactly for filenames ending in `.xlsx` or
`.xls`; any other name is rejected with the extension error before any
request. -/
theorem C7_extension_gate (st : FormState) (name : String) :
    ((handleFileUpload st name).2 = true ↔
      (endsWithStr name ".xlsx" = true ∨ endsWithStr name ".xls" = true)) ∧
    (endsWithStr name ".xlsx" = false → endsWithStr name ".xls" = false →
      (handleFileUpload st name).2 = false ∧
      (handleFileUpload st name).1.error = "Please upload an Excel file (.xlsx or .xls)") := by
  by_cases h1 : endsWithStr name ".xlsx" = true <;>
    by_cases h2 : endsWithStr name ".xls" = true <;>
      simp [handleFileUpload, h1, h2]

/-- Witness for C7 at a rejected filename. -/
theorem C7_extension_gate_witness :
    (handleFileUpload (FormState.mk "S" "B" "x" "" "" none) "emails.txt").2 = false ∧
    (handleFileUpload (FormState.mk "S" "B" "x" "" "" none) "emails.txt").1.error =
      "Please upload an Excel file (.xlsx or .xls)" :=
  (C7_extension_gate (FormState.mk "S" "B" "x" "" "" none) "emails.txt").2
    (by decide) (by decide)

/-- C9: a transmitted request carries exactly the normalized list:
pairwise distinct, non-empty, lower-cased, whitespace-trimmed
addresses that all pass validation. -/
theorem C9_request_invariants (st : FormState) (req : EmailRequest)
    (h : (handleSubmitPre st).2 = some req) :
    req.recipients = uniqueRecipients st.recipients ∧
    req.recipients.Nodup ∧
    (∀ e ∈ req.recipients,
      e ≠ "" ∧ strLower e = e ∧ trimStr e = e ∧ validateEmail e = true) := by
  by_cases h1 : uniqueRecipients st.recipients = []
  · rw [handleSubmitPre_empty st h1] at h
    simp at h
  by_cases h2 : invalidEmails st.recipients = []
  case neg =>
    rw [handleSubmitPre_invalid st h2] at h
    simp at h
  by_cases h3 : trimStr st.subject = ""
  case pos =>
    rw [handleSubmitPre_noSubject st h1 h2 h3] at h
    simp at h
  by_cases h4 : trimStr st.body = ""
  case pos =>
    rw [handleSubmitPre_noBody st h1 h2 h3 h4] at h
    simp at h
  rw [handleSubmitPre_send st h1 h2 h3 h4] at h
  have h5 := Option.some.inj h
  rw [← h5]
  refine ⟨rfl, nodup_dedupKeepFirst _, ?_⟩
  intro e he
  rcases mem_uniqueRecipients_fixed he with ⟨hne, hlow, htrim⟩
  refine ⟨hne, hlow, htrim, ?_⟩
  rw [invalidEmails, List.filter_eq_nil_iff] at h2
  have h6 := h2 e he
  simp at h6
  exact h6

/-- Witness for C9 at a concrete accepted submission. -/
theorem C9_request_invariants_witness :
    ((handleSubmitPre (FormState.mk "S" "B" "Ok@Example.com" "" "" none)).2 =
      some (EmailRequest.mk "S" "B" ["ok@example.com"])) ∧
    ((EmailRequest.mk "S" "B" ["ok@example.com"]).recipients =
      uniqueRecipients (FormState.mk "S" "B" "Ok@Example.com" "" "" none).recipients ∧
     (EmailRequest.mk "S" "B" ["ok@example.com"]).recipients.Nodup ∧
     (∀ e ∈ (EmailRequest.mk "S" "B" ["ok@example.com"]).recipients,
       e ≠ "" ∧ strLower e = e ∧ trimStr e = e ∧ validateEmail e = true)) :=
  ⟨by decide,
    C9_request_invariants (FormState.mk "S" "B" "Ok@Example.com" "" "" none)
      (EmailRequest.mk "S" "B" ["ok@example.com"]) (by decide)⟩

/-- C10: whenever some normalized address fails validation the handler
returns before computing duplicate feedback, so the duplicate message
stays empty; a non-empty duplicate message implies every address
passed validation. -/
theorem C10_duplicate_feedback_gated (st : FormState) :
    ((∃ e ∈ uniqueRecipients st.recipients, validateEmail e = false) →
      (handleSubmitPre st).1.duplicateInfo = "" ∧ (handleSubmitPre st).2 = none) ∧
    ((handleSubmitPre st).1.duplicateInfo ≠ "" →
      ∀ e ∈ uniqueRecipients st.recipients, validateEmail e = true) := by
  constructor
  · rintro ⟨e, he, hv⟩
    have hmem : e ∈ invalidEmails st.recipients :=
      List.mem_filter.mpr ⟨he, by simp [hv]⟩
    rw [handleSubmitPre_invalid st (List.ne_nil_of_mem hmem)]
    exact ⟨rfl, rfl⟩
  · intro hdup e he
    by_contra hv
    have hv2 : validateEmail e = false := by
      rcases Bool.eq_false_or_eq_true (validateEmail e) with hb | hb
      · exact absurd hb hv
      · exact hb
    have hmem : e ∈ invalidEmails st.recipients :=
      List.mem_filter.mpr ⟨he, by simp [hv2]⟩
    rw [handleSubmitPre_invalid st (List.ne_nil_of_mem hmem)] at hdup
    exact hdup rfl

/-- Witness for C10: duplicates present and an invalid address, yet no
duplicate feedback. -/
theorem C10_duplicate_feedback_gated_witness :
    (∃ e ∈ uniqueRecipients (FormState.mk "S" "B" "a@B.com\na@b.com\nbad" "" "" none).recipients,
      validateEmail e = false) ∧
    ((handleSubmitPre (FormState.mk "S" "B" "a@B.com\na@b.com\nbad" "" "" none)).1.duplicateInfo = "" ∧
     (handleSubmitPre (FormState.mk "S" "B" "a@B.com\na@b.com\nbad" "" "" none)).2 = none) :=
  ⟨by decide,
    (C10_duplicate_feedback_gated (FormState.mk "S" "B" "a@B.com\na@b.com\nbad" "" "" none)).1
      (by decide)⟩

/-- C8: normalization is idempotent: normalizing the newline-joined
normalized list yields the normalized list again. -/
theorem C8_normalize_idempotent (t : String) :
    uniqueRecipients (joinStr (uniqueRecipients t)) = uniqueRecipients t := by
  by_cases hr : uniqueRecipients t = []
  · rw [hr]
    decide
  · have hrl : recipientList (joinStr (uniqueRecipients t)) = uniqueRecipients t := by
      rw [recipientList]
      have hdata : (joinStr (uniqueRecipients t)).data =
          joinLines ((uniqueRecipients t).map String.data) := rfl
      rw [hdata]
      have hRne : (uniqueRecipients t).map String.data ≠ [] := by
        intro hc
        exact hr (List.map_eq_nil_iff.mp hc)
      have hnl : ∀ p ∈ (uniqueRecipients t).map String.data, '\n' ∉ p := by
        intro p hp
        rcases List.mem_map.mp hp with ⟨e, he, hed⟩
        rw [← hed]
        exact (mem_uniqueRecipients_data he).2.2.2
      rw [splitLines_joinLines hRne hnl, List.map_map]
      have htrim : (uniqueRecipients t).map (trimL ∘ String.data) =
          (uniqueRecipients t).map String.data := by
        apply List.map_congr_left
        intro e he
        exact (mem_uniqueRecipients_data he).2.1
      rw [htrim]
      have hfil : ((uniqueRecipients t).map String.data).filter (fun l => decide (l ≠ [])) =
          (uniqueRecipients t).map String.data := by
        apply List.filter_eq_self.mpr
        intro a ha
        rcases List.mem_map.mp ha with ⟨e, he, hed⟩
        have := (mem_uniqueRecipients_data he).1
        rw [← hed]
        simpa using this
      rw [hfil, List.map_map]
      have hmk : (uniqueRecipients t).map (String.mk ∘ String.data) =
          (uniqueRecipients t).map id := by
        apply List.map_congr_left
        intro e he
        rfl
      rw [hmk, List.map_id]
    rw [uniqueRecipients, hrl]
    have hmap : (uniqueRecipients t).map strLower = uniqueRecipients t := by
      apply (List.map_congr_left ?_).trans (List.map_id _)
      intro e he
      exact (mem_uniqueRecipients_fixed he).2.1
    rw [hmap]
    apply dedupKeepFirst_eq_self
    exact nodup_dedupKeepFirst _

/-- Helper: dropping as many elements as the matched prefix drops the
while-prefix itself. -/
theorem drop_takeWhile_length (p : α → Bool) (l : List α) :
    l.drop (l.takeWhile p).length = l.dropWhile p := by
  induction l with
  | nil => rfl
  | cons x xs ih =>
    rw [List.takeWhile_cons, List.dropWhile_cons]
    by_cases h : p x = true
    · rw [if_pos h, if_pos h, List.length_cons, List.drop_succ_cons]
      exact ih
    · rw [if_neg h, if_neg h]
      rfl

/-- Helper: the executable matcher accepts exactly the language of the
validation regex. -/
theorem validateEmailL_iff_pattern (t : List Char) :
    validateEmailL t = true ↔ emailPattern t := by
  constructor
  · intro h
    simp only [validateEmailL] at h
    rcases hdrop : t.drop (t.takeWhile isEmailChar).length with _ | ⟨r, tail⟩
    · rw [hdrop] at h
      cases h
    · rw [hdrop] at h
      simp only [Bool.and_eq_true] at h
      obtain ⟨⟨⟨hr, hae⟩, hall⟩, hdot⟩ := h
      have hr2 : r = '@' := by simpa using hr
      have hane : t.takeWhile isEmailChar ≠ [] := by
        intro hc
        rw [hc] at hae
        simp at hae
      have hdw : t.dropWhile isEmailChar = r :: tail := by
        rw [← drop_takeWhile_length isEmailChar t]
        exact hdrop
      have ht : t = t.takeWhile isEmailChar ++ (r :: tail) := by
        rw [← hdw, List.takeWhile_append_dropWhile]
      have hea : ∀ x ∈ t.takeWhile isEmailChar, isEmailChar x = true :=
        fun x hx => List.mem_takeWhile_imp hx
      have hallm : ∀ x ∈ tail, isEmailChar x = true := List.all_eq_true.mp hall
      have hdot2 : '.' ∈ tail.tail.dropLast := by
        simpa using hdot
      rcases tail with _ | ⟨t0, t1⟩
      · simp at hdot2
      · have hdot3 : '.' ∈ t1.dropLast := by
          simpa using hdot2
        have ht1ne : t1 ≠ [] := by
          intro hc
          rw [hc] at hdot3
          simp at hdot3
        rcases List.append_of_mem hdot3 with ⟨u, v, huv⟩
        have hlast := List.dropLast_concat_getLast ht1ne
        refine ⟨t.takeWhile isEmailChar, t0 :: u, v ++ [t1.getLast ht1ne],
          ?_, hane, by simp, by simp, hea, ?_, ?_⟩
        · have htail : t0 :: t1 = (t0 :: u) ++ '.' :: (v ++ [t1.getLast ht1ne]) := by
            conv_lhs => rw [← hlast, huv]
            simp [List.append_assoc]
          conv_lhs => rw [ht]
          rw [hr2, htail]
        · intro x hx
          rcases List.mem_cons.mp hx with hx | hx
          · rw [hx]
            exact hallm t0 (List.mem_cons_self t0 t1)
          · apply hallm
            apply List.mem_cons_of_mem
            apply List.mem_of_mem_dropLast
            rw [huv]
            exact List.mem_append_left _ hx
        · intro x hx
          rcases List.mem_append.mp hx with hx | hx
          · apply hallm
            apply List.mem_cons_of_mem
            apply List.mem_of_mem_dropLast
            rw [huv]
            exact List.mem_append_right _ (List.mem_cons_of_mem _ hx)
          · rcases List.mem_singleton.mp hx with rfl
            exact hallm _ (List.mem_cons_of_mem _ (List.getLast_mem ht1ne))
  · rintro ⟨a, b, c, ht, ha, hb, hc, hea, heb, hec⟩
    have htw : t.takeWhile isEmailChar = a := by
      rw [ht, List.takeWhile_append_of_pos hea, List.takeWhile_cons_of_neg (by decide),
        List.append_nil]
    have hdrop : t.drop (t.takeWhile isEmailChar).length = '@' :: (b ++ '.' :: c) := by
      rw [htw]
      conv_lhs => rw [ht]
      rw [← htw, htw, List.drop_left]
    simp only [validateEmailL, hdrop]
    rw [htw]
    simp only [Bool.and_eq_true, beq_self_eq_true, true_and]
    refine ⟨⟨?_, ?_⟩, ?_⟩
    · simp [ha]
    · rw [List.all_eq_true]
      intro x hx
      rcases List.mem_append.mp hx with hx | hx
      · exact heb x hx
      · rcases List.mem_cons.mp hx with hx | hx
        · rw [hx]
          decide
        · exact hec x hx
    · rcases b with _ | ⟨b0, b1⟩
      · exact absurd rfl hb
      · rw [List.cons_append, List.tail_cons, List.dropLast_append_cons]
        rcases c with _ | ⟨c0, c1⟩
        · exact absurd rfl hc
        · rw [List.dropLast_cons₂]
          simp

/-- C3: the validator accepts a string exactly when the trimmed string
has the shape local `@` domain `.` tld with all three parts non-empty
sequences of non-whitespace non-`@` characters; `"not-an-email"` is
rejected and `"user@example.com"` accepted. -/
theorem C3_validator_pattern :
    (∀ s : String, validateEmail s = true ↔ emailPattern (trimL s.data)) ∧
    validateEmail "not-an-email" = false ∧
    validateEmail "user@example.com" = true := by
  refine ⟨fun s => ?_, by decide, by decide⟩
  rw [validateEmail]
  exact validateEmailL_iff_pattern (trimL s.data)

end BulkEmail
